import Mathlib

set_option maxHeartbeats 1000000

/-! Verification of the SAG (Segment Address Generator) parser and linker-script
generator. Rust strings are modelled as lists of characters; `u64`/`i64`
arithmetic is modelled on `Nat`/`Int` with explicit reduction modulo `2 ^ 64`
(release-mode wrapping semantics). Fallible operations return `Except`/`Option`.
The parser works on the list of source lines; the splitting of the input text
into lines is taken as given. -/

namespace Sag

/-- Characters of a Rust string slice: `&str` is modelled as a list of chars. -/
abbrev Str := List Char

/-- Character data of a Lean string literal, for concrete inputs. -/
def strLit (s : String) : Str := s.data

/-- Rust `char::is_whitespace`, restricted to the ASCII whitespace characters
(the full Unicode White_Space set is not needed for SAG inputs): space (32),
tab (9), line feed (10), vertical tab (11), form feed (12), carriage return (13). -/
def isWs (c : Char) : Bool :=
  c.toNat = 32 || c.toNat = 9 || c.toNat = 10 || c.toNat = 11 || c.toNat = 12 || c.toNat = 13

/-- Rust `str::trim`: drop whitespace from both ends. -/
def trimChars (s : Str) : Str :=
  ((s.dropWhile isWs).reverse.dropWhile isWs).reverse

/-- Rust `str::split` with a character predicate: pieces between separator
occurrences, keeping empty pieces (as Rust's `Split` iterator does). -/
def splitPred (p : Char → Bool) : Str → List Str
  | [] => [[]]
  | c :: cs =>
    if p c then [] :: splitPred p cs
    else
      match splitPred p cs with
      | [] => [[c]]
      | r :: rs => (c :: r) :: rs

/-- Rust `line.split(';').next().unwrap_or("")`, then `trim`: the text before
the first comment marker, trimmed. -/
def stripLine (s : Str) : Str :=
  trimChars ((splitPred (fun c => c = ';') s).headD [])

/-- Rust `str::split_whitespace`: whitespace-separated words, empties dropped. -/
def wordsOf (s : Str) : List Str :=
  (splitPred isWs s).filter (fun w => w ≠ [])

/-- Rust `char::to_ascii_lowercase`: shift A-Z (65-90) to a-z. -/
def lowerAscii (c : Char) : Char :=
  if 65 ≤ c.toNat ∧ c.toNat ≤ 90 then Char.ofNat (c.toNat + 32) else c

def eqIgnoreAsciiCase (a b : Str) : Bool :=
  a.map lowerAscii == b.map lowerAscii

/-- Rust `char::to_digit(radix)` on code points: digits 0-9 (48-57) map to 0-9,
letters a-z (97-122) and A-Z (65-90) map to 10-35; the result must be below the
radix. -/
def digitOfChar (radix : Nat) (c : Char) : Option Nat :=
  let d? : Option Nat :=
    if 48 ≤ c.toNat ∧ c.toNat ≤ 57 then some (c.toNat - 48)
    else if 97 ≤ c.toNat ∧ c.toNat ≤ 122 then some (c.toNat - 87)
    else if 65 ≤ c.toNat ∧ c.toNat ≤ 90 then some (c.toNat - 55)
    else none
  match d? with
  | some d => if d < radix then some d else none
  | none => none

/-- Digit-accumulation loop of Rust integer parsing (no intermediate overflow:
the final bound check below is equivalent because the accumulator is monotone). -/
def digitsLoop (radix : Nat) (acc : Nat) : Str → Option Nat
  | [] => some acc
  | c :: cs =>
    match digitOfChar radix c with
    | some d => digitsLoop radix (acc * radix + d) cs
    | none => none

/-- Value of a nonempty run of digits in the given radix. -/
def digitsValue (radix : Nat) (ds : Str) : Option Nat :=
  if ds.isEmpty then none else digitsLoop radix 0 ds

/-- Rust `u64::from_str` (radix 10) and `u64::from_str_radix`: an optional
leading plus sign, then a nonempty digit run; a minus sign is rejected for
unsigned integers; the value must fit in 64 bits. -/
def parseU64 (radix : Nat) (s : Str) : Option Nat :=
  let ds := if s.head? = some '+' then s.tail else s
  match digitsValue radix ds with
  | some v => if v < 2 ^ 64 then some v else none
  | none => none

/-- Rust `i64::from_str`: optional sign, nonempty decimal digit run, value in
the signed 64-bit range. -/
def parseI64 (s : Str) : Option Int :=
  let neg : Bool := s.head? = some '-'
  let ds := if s.head? = some '+' || s.head? = some '-' then s.tail else s
  match digitsValue 10 ds with
  | some v =>
    if neg then (if v ≤ 2 ^ 63 then some (-(v : Int)) else none)
    else (if v < 2 ^ 63 then some ((v : Int)) else none)
  | none => none

/-- Errors from SAG parsing. The source's `Io` variant only wraps file-system
errors of the excluded `from_file` convenience and is not modelled. -/
inductive SagError where
  | Parse (line : Nat) (message : Str)
  | InvalidAddress (txt : Str)
  deriving DecidableEq, Repr

/-- An address that is absolute or relative to the previous section. -/
inductive Address where
  | Absolute (a : Nat)
  | Relative (r : Int)
  deriving DecidableEq, Repr

/-- `Address::parse` from the source: trim; a leading plus or minus sign makes
a relative decimal offset (after a plus the remainder is trimmed again before
parsing); a leading 0x or 0X makes a hexadecimal absolute value; otherwise a
plain decimal absolute value; anything else is `InvalidAddress`. -/
def Address.parse (s0 : Str) : Except SagError Address :=
  let s := trimChars s0
  if List.isPrefixOf ['+'] s || List.isPrefixOf ['-'] s then
    let v? := if List.isPrefixOf ['+'] s then parseI64 (trimChars (s.drop 1)) else parseI64 s
    match v? with
    | some v => .ok (.Relative v)
    | none => .error (.InvalidAddress s)
  else if List.isPrefixOf (strLit "0x") s || List.isPrefixOf (strLit "0X") s then
    match parseU64 16 (s.drop 2) with
    | some v => .ok (.Absolute v)
    | none => .error (.InvalidAddress s)
  else
    match parseU64 10 s with
    | some v => .ok (.Absolute v)
    | none => .error (.InvalidAddress s)

/-- `base as i64`: reinterpret a 64-bit unsigned value as two's-complement. -/
def i64ofU64 (b : Nat) : Int :=
  if b < 2 ^ 63 then (b : Int) else (b : Int) - 2 ^ 64

/-- Wrapping of a mathematical integer into the signed 64-bit range (the
release-mode semantics of `i64` addition overflow). -/
def wrapI64 (x : Int) : Int :=
  (x + 2 ^ 63) % 2 ^ 64 - 2 ^ 63

/-- `x as u64`: reinterpret a signed 64-bit value as unsigned. -/
def u64ofI64 (x : Int) : Nat :=
  (x % 2 ^ 64).toNat

/-- `Address::resolve` from the source: an absolute address ignores the base;
a relative offset is added to the base in signed 64-bit arithmetic
(`(base as i64 + offset) as u64`). Total: no error case. -/
def Address.resolve : Address → Nat → Nat
  | .Absolute a, _ => a
  | .Relative r, base => u64ofI64 (wrapI64 (i64ofU64 base + r))

/-! Specification-side digit classification and numeric values, used to state
what "the exact numeric value" of a digit string is, independently of the
parsing code. -/

/-- A decimal digit character (code points 48-57). -/
def isDecDigit (c : Char) : Bool := 48 ≤ c.toNat && c.toNat ≤ 57

/-- A hexadecimal digit character: 0-9, a-f, A-F. -/
def isHexDigitCh (c : Char) : Bool :=
  isDecDigit c || (97 ≤ c.toNat && c.toNat ≤ 102) || (65 ≤ c.toNat && c.toNat ≤ 70)

def decDigitVal (c : Char) : Nat := c.toNat - 48

def hexDigitVal (c : Char) : Nat :=
  if isDecDigit c then c.toNat - 48
  else if 97 ≤ c.toNat ∧ c.toNat ≤ 102 then c.toNat - 87
  else c.toNat - 55

/-- The numeric value of a decimal digit string, most significant digit first. -/
def decValue (ds : Str) : Nat := Nat.ofDigits 10 ((ds.map decDigitVal).reverse)

/-- The numeric value of a hexadecimal digit string, most significant first. -/
def hexValue (ds : Str) : Nat := Nat.ofDigits 16 ((ds.map hexDigitVal).reverse)

lemma decBounds (c : Char) (h : isDecDigit c = true) : 48 ≤ c.toNat ∧ c.toNat ≤ 57 := by
  simpa [isDecDigit] using h

lemma hex_ge (c : Char) (h : isHexDigitCh c = true) : 48 ≤ c.toNat := by
  simp only [isHexDigitCh, isDecDigit, Bool.or_eq_true, Bool.and_eq_true,
    decide_eq_true_eq] at h
  rcases h with (h | h) | h <;> omega

lemma isWs_false_of_ge (c : Char) (h : 43 ≤ c.toNat) : isWs c = false := by
  simp only [isWs, Bool.or_eq_false_iff, decide_eq_false_iff_not]
  omega

lemma dropWhile_eq_self_all (p : Char → Bool) (l : Str) (h : ∀ c ∈ l, p c = false) :
    l.dropWhile p = l := by
  cases l with
  | nil => rfl
  | cons c cs => simp [List.dropWhile_cons, h c (by simp)]

lemma trimChars_eq_self (s : Str) (h : ∀ c ∈ s, isWs c = false) : trimChars s = s := by
  unfold trimChars
  rw [dropWhile_eq_self_all _ _ h, dropWhile_eq_self_all _ _ (by simpa using h),
    List.reverse_reverse]

lemma char_ne_of_toNat_ne {c d : Char} (h : c.toNat ≠ d.toNat) : c ≠ d :=
  fun e => h (congrArg Char.toNat e)

lemma isPrefixOf_single_neg (a c : Char) (cs : Str) (h : a ≠ c) :
    List.isPrefixOf [a] (c :: cs) = false := by
  simp [List.isPrefixOf, h]

lemma digitOfChar_dec (c : Char) (h : isDecDigit c = true) :
    digitOfChar 10 c = some (decDigitVal c) := by
  have hb := decBounds c h
  have h10 : c.toNat - 48 < 10 := by omega
  simp [digitOfChar, decDigitVal, hb, h10]

lemma digitOfChar_hex (c : Char) (h : isHexDigitCh c = true) :
    digitOfChar 16 c = some (hexDigitVal c) := by
  simp only [isHexDigitCh, isDecDigit, Bool.or_eq_true, Bool.and_eq_true,
    decide_eq_true_eq] at h
  unfold digitOfChar hexDigitVal isDecDigit
  rcases h with (h | h) | h <;>
    · simp only [decide_eq_true_eq, Bool.and_eq_true]
      split_ifs <;> first | (simp; omega) | omega

lemma digitsLoop_all_dec (ds : Str) (h : ∀ c ∈ ds, isDecDigit c = true) (acc : Nat) :
    digitsLoop 10 acc ds = some (List.foldl (fun a c => a * 10 + decDigitVal c) acc ds) := by
  induction ds generalizing acc with
  | nil => simp [digitsLoop]
  | cons c cs ih =>
    rw [digitsLoop, digitOfChar_dec c (h c (by simp))]
    simpa using ih (fun x hx => h x (by simp [hx])) (acc * 10 + decDigitVal c)

lemma digitsLoop_all_hex (ds : Str) (h : ∀ c ∈ ds, isHexDigitCh c = true) (acc : Nat) :
    digitsLoop 16 acc ds = some (List.foldl (fun a c => a * 16 + hexDigitVal c) acc ds) := by
  induction ds generalizing acc with
  | nil => simp [digitsLoop]
  | cons c cs ih =>
    rw [digitsLoop, digitOfChar_hex c (h c (by simp))]
    simpa using ih (fun x hx => h x (by simp [hx])) (acc * 16 + hexDigitVal c)

lemma foldl_decValue (ds : Str) (acc : Nat) :
    List.foldl (fun a c => a * 10 + decDigitVal c) acc ds = acc * 10 ^ ds.length + decValue ds := by
  induction ds generalizing acc with
  | nil => simp [decValue, Nat.ofDigits]
  | cons c cs ih =>
    simp only [List.foldl_cons, ih, decValue, List.map_cons, List.reverse_cons,
      Nat.ofDigits_append, List.length_reverse, List.length_map, List.length_cons]
    simp [Nat.ofDigits]
    ring

lemma foldl_hexValue (ds : Str) (acc : Nat) :
    List.foldl (fun a c => a * 16 + hexDigitVal c) acc ds = acc * 16 ^ ds.length + hexValue ds := by
  induction ds generalizing acc with
  | nil => simp [hexValue, Nat.ofDigits]
  | cons c cs ih =>
    simp only [List.foldl_cons, ih, hexValue, List.map_cons, List.reverse_cons,
      Nat.ofDigits_append, List.length_reverse, List.length_map, List.length_cons]
    simp [Nat.ofDigits]
    ring

lemma digitsValue_dec (ds : Str) (h : ∀ c ∈ ds, isDecDigit c = true) (hne : ds ≠ []) :
    digitsValue 10 ds = some (decValue ds) := by
  rw [digitsValue, if_neg (by simpa using hne), digitsLoop_all_dec ds h 0, foldl_decValue]
  simp

lemma digitsValue_hex (ds : Str) (h : ∀ c ∈ ds, isHexDigitCh c = true) (hne : ds ≠ []) :
    digitsValue 16 ds = some (hexValue ds) := by
  rw [digitsValue, if_neg (by simpa using hne), digitsLoop_all_hex ds h 0, foldl_hexValue]
  simp

/-- Claim C1: `Address::resolve` is base-independent for `Absolute` and computes
`base + r` modulo `2 ^ 64` for `Relative`, via the signed 64-bit reinterpretation;
there is no error case (the function is total). -/
theorem c1_resolve_wrapping (a base : Nat) (r : Int) :
    Address.resolve (.Absolute a) base = a ∧
    Address.resolve (.Relative r) base = (((base : Int) + r) % (2 ^ 64 : Int)).toNat := by
  refine ⟨rfl, ?_⟩
  simp only [Address.resolve, u64ofI64, wrapI64, i64ofU64]
  split <;> omega

/-- Claim C3 counterexample: the claim states that every string that is not a
plain decimal, a 0x/0X-hexadecimal, `+N`, or `-N` (N decimal) fails with
`InvalidAddress`; but `"+ 5"` (sign, space, digit) is accepted as `Relative 5`,
because the plus branch trims the remainder again before parsing it. -/
theorem c3_counterexample_plus_space :
    Address.parse (strLit "+ 5") = .ok (.Relative 5) := by rfl

/-- Claim C3 (amended): on the canonical forms the parser returns the exact
numeric value: a nonempty all-decimal string yields `Absolute` of its decimal
value (when it fits in 64 bits), `0x`/`0X` followed by hex digits yields
`Absolute` of the hex value, and `+`/`-` followed by decimal digits yields the
signed `Relative` value (within the signed 64-bit range). The original claim's
clause that all other strings fail does not hold (see the counterexample). -/
theorem c3_amended_parse_values :
    (∀ ds : Str, ds ≠ [] → (∀ c ∈ ds, isDecDigit c = true) → decValue ds < 2 ^ 64 →
      Address.parse ds = .ok (.Absolute (decValue ds))) ∧
    (∀ ds : Str, ds ≠ [] → (∀ c ∈ ds, isHexDigitCh c = true) → hexValue ds < 2 ^ 64 →
      Address.parse ('0' :: 'x' :: ds) = .ok (.Absolute (hexValue ds))) ∧
    (∀ ds : Str, ds ≠ [] → (∀ c ∈ ds, isHexDigitCh c = true) → hexValue ds < 2 ^ 64 →
      Address.parse ('0' :: 'X' :: ds) = .ok (.Absolute (hexValue ds))) ∧
    (∀ ds : Str, ds ≠ [] → (∀ c ∈ ds, isDecDigit c = true) → decValue ds < 2 ^ 63 →
      Address.parse ('+' :: ds) = .ok (.Relative (decValue ds))) ∧
    (∀ ds : Str, ds ≠ [] → (∀ c ∈ ds, isDecDigit c = true) → decValue ds ≤ 2 ^ 63 →
      Address.parse ('-' :: ds) = .ok (.Relative (-(decValue ds : Int)))) := by
  refine ⟨?_, ?_, ?_, ?_, ?_⟩
  · intro ds hne hall hlt
    obtain ⟨c, cs, rfl⟩ : ∃ c cs, ds = c :: cs := by
      cases ds with
      | nil => exact absurd rfl hne
      | cons c cs => exact ⟨c, cs, rfl⟩
    have hws : ∀ x ∈ c :: cs, isWs x = false := fun x hx =>
      isWs_false_of_ge x (by have := decBounds x (hall x hx); omega)
    have hc := decBounds c (hall c (by simp))
    have hcp : c ≠ '+' := char_ne_of_toNat_ne (by
      have h43 : ('+' : Char).toNat = 43 := rfl
      omega)
    have hcm : c ≠ '-' := char_ne_of_toNat_ne (by
      have h45 : ('-' : Char).toNat = 45 := rfl
      omega)
    have hplus : List.isPrefixOf ['+'] (c :: cs) = false :=
      isPrefixOf_single_neg _ _ _ (Ne.symm hcp)
    have hminus : List.isPrefixOf ['-'] (c :: cs) = false :=
      isPrefixOf_single_neg _ _ _ (Ne.symm hcm)
    have h0x : List.isPrefixOf (strLit "0x") (c :: cs) = false := by
      show List.isPrefixOf ['0', 'x'] (c :: cs) = false
      cases cs with
      | nil => simp [List.isPrefixOf]
      | cons c2 cs2 =>
        have hc2 := decBounds c2 (hall c2 (by simp))
        have hx : ('x' : Char) ≠ c2 := Ne.symm (char_ne_of_toNat_ne (by
          have : ('x' : Char).toNat = 120 := rfl
          omega))
        simp [List.isPrefixOf, hx]
    have h0X : List.isPrefixOf (strLit "0X") (c :: cs) = false := by
      show List.isPrefixOf ['0', 'X'] (c :: cs) = false
      cases cs with
      | nil => simp [List.isPrefixOf]
      | cons c2 cs2 =>
        have hc2 := decBounds c2 (hall c2 (by simp))
        have hx : ('X' : Char) ≠ c2 := Ne.symm (char_ne_of_toNat_ne (by
          have : ('X' : Char).toNat = 88 := rfl
          omega))
        simp [List.isPrefixOf, hx]
    unfold Address.parse
    rw [trimChars_eq_self _ hws]
    simp only [hplus, hminus, h0x, h0X, Bool.or_self, Bool.false_or, if_false,
      Bool.false_eq_true, ite_false]
    unfold parseU64
    simp only [List.head?_cons, Option.some.injEq, hcp, if_false, ite_false,
      digitsValue_dec _ hall (by simp), hlt, if_true, ite_true]
  · intro ds hne hall hlt
    obtain ⟨c, cs, rfl⟩ : ∃ c cs, ds = c :: cs := by
      cases ds with
      | nil => exact absurd rfl hne
      | cons c cs => exact ⟨c, cs, rfl⟩
    have hws : ∀ x ∈ '0' :: 'x' :: c :: cs, isWs x = false := by
      intro x hx
      rcases hx with _ | ⟨_, hx⟩
      · exact isWs_false_of_ge _ (by decide)
      · rcases hx with _ | ⟨_, hx⟩
        · exact isWs_false_of_ge _ (by decide)
        · exact isWs_false_of_ge x (by have := hex_ge x (hall x hx); omega)
    have hcp : c ≠ '+' := char_ne_of_toNat_ne (by
      have h43 : ('+' : Char).toNat = 43 := rfl
      have := hex_ge c (hall c (by simp))
      omega)
    unfold Address.parse
    rw [trimChars_eq_self _ hws]
    simp only [show List.isPrefixOf ['+'] ('0' :: 'x' :: c :: cs) = false by
        simp [List.isPrefixOf],
      show List.isPrefixOf ['-'] ('0' :: 'x' :: c :: cs) = false by
        simp [List.isPrefixOf],
      show List.isPrefixOf (strLit "0x") ('0' :: 'x' :: c :: cs) = true by
        simp [strLit, List.isPrefixOf],
      Bool.or_self, Bool.false_eq_true, ite_false, Bool.true_or, ite_true]
    unfold parseU64
    simp only [List.drop_succ_cons, List.drop_zero, List.head?_cons,
      Option.some.injEq, hcp, ite_false,
      digitsValue_hex _ hall (by simp), hlt, ite_true]
  · intro ds hne hall hlt
    obtain ⟨c, cs, rfl⟩ : ∃ c cs, ds = c :: cs := by
      cases ds with
      | nil => exact absurd rfl hne
      | cons c cs => exact ⟨c, cs, rfl⟩
    have hws : ∀ x ∈ '0' :: 'X' :: c :: cs, isWs x = false := by
      intro x hx
      rcases hx with _ | ⟨_, hx⟩
      · exact isWs_false_of_ge _ (by decide)
      · rcases hx with _ | ⟨_, hx⟩
        · exact isWs_false_of_ge _ (by decide)
        · exact isWs_false_of_ge x (by have := hex_ge x (hall x hx); omega)
    have hcp : c ≠ '+' := char_ne_of_toNat_ne (by
      have h43 : ('+' : Char).toNat = 43 := rfl
      have := hex_ge c (hall c (by simp))
      omega)
    unfold Address.parse
    rw [trimChars_eq_self _ hws]
    simp only [show List.isPrefixOf ['+'] ('0' :: 'X' :: c :: cs) = false by
        simp [List.isPrefixOf],
      show List.isPrefixOf ['-'] ('0' :: 'X' :: c :: cs) = false by
        simp [List.isPrefixOf],
      show List.isPrefixOf (strLit "0x") ('0' :: 'X' :: c :: cs) = false by
        simp [strLit, List.isPrefixOf],
      show List.isPrefixOf (strLit "0X") ('0' :: 'X' :: c :: cs) = true by
        simp [strLit, List.isPrefixOf],
      Bool.or_self, Bool.false_eq_true, ite_false, Bool.false_or, Bool.or_true, ite_true]
    unfold parseU64
    simp only [List.drop_succ_cons, List.drop_zero, List.head?_cons,
      Option.some.injEq, hcp, ite_false,
      digitsValue_hex _ hall (by simp), hlt, ite_true]
  · intro ds hne hall hlt
    obtain ⟨c, cs, rfl⟩ : ∃ c cs, ds = c :: cs := by
      cases ds with
      | nil => exact absurd rfl hne
      | cons c cs => exact ⟨c, cs, rfl⟩
    have hws : ∀ x ∈ '+' :: c :: cs, isWs x = false := by
      intro x hx
      rcases hx with _ | ⟨_, hx⟩
      · exact isWs_false_of_ge _ (by decide)
      · exact isWs_false_of_ge x (by have := decBounds x (hall x hx); omega)
    have hwsIn : ∀ x ∈ c :: cs, isWs x = false := fun x hx =>
      isWs_false_of_ge x (by have := decBounds x (hall x hx); omega)
    have hc := decBounds c (hall c (by simp))
    have hcp : c ≠ '+' := char_ne_of_toNat_ne (by
      have h43 : ('+' : Char).toNat = 43 := rfl
      omega)
    have hcm : c ≠ '-' := char_ne_of_toNat_ne (by
      have h45 : ('-' : Char).toNat = 45 := rfl
      omega)
    unfold Address.parse
    rw [trimChars_eq_self _ hws]
    simp only [show List.isPrefixOf ['+'] ('+' :: c :: cs) = true by
        simp [List.isPrefixOf],
      Bool.true_or, ite_true, List.drop_succ_cons, List.drop_zero]
    rw [trimChars_eq_self _ hwsIn]
    unfold parseI64
    simp [hcp, hcm, digitsValue_dec _ hall (by simp), hlt]
    rw [if_pos (by omega)]
  · intro ds hne hall hlt
    obtain ⟨c, cs, rfl⟩ : ∃ c cs, ds = c :: cs := by
      cases ds with
      | nil => exact absurd rfl hne
      | cons c cs => exact ⟨c, cs, rfl⟩
    have hws : ∀ x ∈ '-' :: c :: cs, isWs x = false := by
      intro x hx
      rcases hx with _ | ⟨_, hx⟩
      · exact isWs_false_of_ge _ (by decide)
      · exact isWs_false_of_ge x (by have := decBounds x (hall x hx); omega)
    unfold Address.parse
    rw [trimChars_eq_self _ hws]
    simp only [show List.isPrefixOf ['+'] ('-' :: c :: cs) = false by
        simp [List.isPrefixOf],
      show List.isPrefixOf ['-'] ('-' :: c :: cs) = true by
        simp [List.isPrefixOf],
      Bool.false_or, Bool.or_true, ite_true, Bool.false_eq_true, ite_false]
    unfold parseI64
    simp [digitsValue_dec _ hall (by simp), hlt]
    rw [if_pos (by omega)]

/-- Witness for the amended C3 theorem at the concrete input `"42"`. -/
theorem c3_amended_witness : Address.parse (strLit "42") = .ok (.Absolute 42) := by
  have h := c3_amended_parse_values.1 (strLit "42") (by decide) (by decide) (by decide)
  have hv : decValue (strLit "42") = 42 := by decide
  rw [hv] at h
  exact h

/-! The AST: directives, regions, blocks, and the parsed file. -/

/-- A directive within a region: `ADDR [NEXT] sym`, `LOADADDR [NEXT] sym`,
a `* [KEEP] ( pattern )` section-placement rule, or `STACK = addr`. -/
inductive Directive where
  | Addr (symbol : Str) (next : Bool)
  | LoadAddr (symbol : Str) (next : Bool)
  | Section (pattern : Str) (keep : Bool)
  | Stack (addr : Nat)
  deriving DecidableEq, Repr

/-- A memory region within a block. -/
structure Region where
  name : Str
  vma : Address
  directives : List Directive
  deriving DecidableEq, Repr

/-- A section block (HEAD, MEM, LDSECTION, EXEC, DATA). -/
structure Block where
  block_type : Str
  lma : Address
  alignment : Option Nat
  regions : List Region
  deriving DecidableEq, Repr

/-- A parsed SAG file. -/
structure SagFile where
  user_sections : List Str
  blocks : List Block
  deriving DecidableEq, Repr

/-- One named entry of a memory-layout configuration. -/
structure MemoryRegion where
  origin : Nat
  length : Nat
  attributes : Str
  deriving DecidableEq, Repr

/-- Configuration for linker-script generation. The source stores the regions
in a `HashMap` whose iteration order is unspecified; it is modelled as an
association list whose order stands for one fixed iteration order. -/
structure LinkerScriptConfig where
  name : Str
  memory_regions : List (Str × MemoryRegion)
  deriving DecidableEq, Repr

/-! 64-bit wrapping arithmetic for the generator (release-mode semantics). -/

def wadd (x y : Nat) : Nat := (x + y) % 2 ^ 64

def wsub (x y : Nat) : Nat := (x % 2 ^ 64 + 2 ^ 64 - y % 2 ^ 64) % 2 ^ 64

/-- Bitwise NOT on 64 bits: for x below 2^64 this is 2^64 - 1 - x. -/
def not64 (x : Nat) : Nat := 2 ^ 64 - 1 - x % 2 ^ 64

/-- `(addr + align - 1) & !(align - 1)` in wrapping u64 arithmetic. -/
def alignUp (addr align : Nat) : Nat :=
  Nat.land (wsub (wadd addr align) 1) (not64 (wsub align 1))

/-! Output formatting helpers. -/

/-- One uppercase hexadecimal digit. -/
def hexDigitChar (n : Nat) : Char :=
  if n < 10 then Char.ofNat (48 + n) else Char.ofNat (55 + n)

/-- Digit-emission loop for hexadecimal formatting; the fuel (first argument)
is always sufficient because the number shrinks by a factor 16 each step. -/
def hexDigitsGo (fuel : Nat) (n : Nat) (acc : Str) : Str :=
  match fuel with
  | 0 => acc
  | fuel + 1 =>
    let acc2 := hexDigitChar (n % 16) :: acc
    if n < 16 then acc2 else hexDigitsGo fuel (n / 16) acc2

/-- Uppercase hexadecimal digits of a number (at least one digit). -/
def hexDigitsUpper (n : Nat) : Str := hexDigitsGo (n + 1) n []

/-- Rust format `{:#010X}`: 0x prefix, zero-padded to at least 8 hex digits. -/
def hex010 (n : Nat) : Str :=
  let ds := hexDigitsUpper n
  strLit "0x" ++ List.replicate (8 - ds.length) '0' ++ ds

/-- Decimal rendering of a number (Rust `{}` on u64). -/
def natDecStr (n : Nat) : Str := (Nat.repr n).data

/-- `format_size` from the source: the largest exact binary unit G/M/K, else
the raw byte count. -/
def formatSize (bytes : Nat) : Str :=
  if 1024 * 1024 * 1024 ≤ bytes ∧ bytes % (1024 * 1024 * 1024) = 0 then
    natDecStr (bytes / (1024 * 1024 * 1024)) ++ ['G']
  else if 1024 * 1024 ≤ bytes ∧ bytes % (1024 * 1024) = 0 then
    natDecStr (bytes / (1024 * 1024)) ++ ['M']
  else if 1024 ≤ bytes ∧ bytes % 1024 = 0 then
    natDecStr (bytes / 1024) ++ ['K']
  else
    natDecStr bytes

/-- Rust `str::to_lowercase` restricted to ASCII (region names in SAG files are
ASCII; Unicode special casing is not modelled). -/
def toLowerStr (s : Str) : Str := s.map lowerAscii

/-- Rust `{:?}` (Debug) for the configuration name: quoted, with the escapes
relevant to ASCII-printable names (the presets only use such names). -/
def escDebugChar (c : Char) : Str :=
  if c = '\"' then ['\\', '\"']
  else if c = '\\' then ['\\', '\\']
  else if c = '\n' then ['\\', 'n']
  else if c = '\r' then ['\\', 'r']
  else if c = '\t' then ['\\', 't']
  else [c]

def debugStr (s : Str) : Str := ['\"'] ++ s.flatMap escDebugChar ++ ['\"']

/-! The generator (`SagFile::to_linker_script` and helpers), producing the
output as a list of lines; each `writeln!` of the source contributes one line. -/

/-- `expand_section_pattern`: split on commas, trim each part, expand the four
macro tokens, strip a leading dot, pass anything else through. -/
def expandOne (part0 : Str) : List Str :=
  let part := trimChars part0
  if part = strLit "+ISR" then [strLit "vectors", strLit "isr"]
  else if part = strLit "+RO" then [strLit "text", strLit "rodata", strLit "srodata"]
  else if part = strLit "+RW" then [strLit "data", strLit "sdata"]
  else if part = strLit "+ZI" then [strLit "bss", strLit "sbss"]
  else if List.isPrefixOf ['.'] part then [part.drop 1]
  else [part]

def expandSectionPattern (pattern : Str) : List Str :=
  (splitPred (fun c => c = ',') pattern).flatMap expandOne

/-- `find_stack`: the first `Stack` directive in document order (block order,
then region order, then directive order), as the source's nested loops with
early return. -/
def stackOf : Directive → Option Nat
  | .Stack a => some a
  | _ => none

def findStack (sag : SagFile) : Option Nat :=
  sag.blocks.findSome? fun b => b.regions.findSome? fun r => r.directives.findSome? stackOf

/-- `vma_to_region`: the first configured region whose address range contains
the address (containment bound computed in wrapping u64 arithmetic). -/
def vmaToRegion (cfg : LinkerScriptConfig) (vma : Nat) : Option Str :=
  cfg.memory_regions.findSome? fun p =>
    if p.2.origin ≤ vma ∧ vma < wadd p.2.origin p.2.length then some p.1 else none

/-- The lines a single directive contributes inside `emit_region`. -/
def emitDirectiveLines (name : Str) (lma : Nat) (memRegion : Str) (rip : Bool) :
    Directive → List Str
  | .Addr symbol _ => [strLit "    " ++ symbol ++ strLit " = .;"]
  | .LoadAddr symbol _ =>
    [strLit "    " ++ symbol ++ strLit " = LOADADDR(." ++ toLowerStr name ++ strLit ");"]
  | .Section pattern keep =>
    (expandSectionPattern pattern).flatMap fun sec =>
      [if rip then strLit "    ." ++ sec ++ strLit " :"
       else strLit "    ." ++ sec ++ strLit " : AT(" ++ natDecStr lma ++ strLit ")",
       strLit "    \x7b"]
      ++ (if keep then
            [strLit "        KEEP(*(." ++ sec ++ strLit "))",
             strLit "        KEEP(*(." ++ sec ++ strLit "*))"]
          else
            [strLit "        *(." ++ sec ++ strLit ")",
             strLit "        *(." ++ sec ++ strLit "*)"])
      ++ [strLit "    \x7d > " ++ memRegion]
  | .Stack addr => [strLit "    __stack_top = " ++ hex010 addr ++ strLit ";"]

/-- Body of `emit_region` once the memory-region name and the runs-in-place
flag have been determined. -/
def emitRegionCore (r : Region) (lma vma : Nat) (memRegion : Str) (rip : Bool) :
    List Str :=
  [[], strLit "    /* Region: " ++ r.name ++ strLit " VMA=" ++ hex010 vma
    ++ strLit " LMA=" ++ hex010 lma ++ strLit " */"]
  ++ r.directives.flatMap (emitDirectiveLines r.name lma memRegion rip)

/-- `emit_region`: the memory region is the one containing the VMA (fallback
the literal name RAM); the region runs in place iff VMA and LMA fall in the
same (optional) configured region. -/
def emitRegion (r : Region) (lma vma : Nat) (cfg : LinkerScriptConfig) : List Str :=
  emitRegionCore r lma vma ((vmaToRegion cfg vma).getD (strLit "RAM"))
    (vmaToRegion cfg vma == vmaToRegion cfg lma)

/-- The block loop of `to_linker_script`: resolve the block LMA against the
running cursor, align it, emit the block comment and its regions. -/
def blocksGo (cfg : LinkerScriptConfig) : List Block → Nat → List Str
  | [], _ => []
  | b :: rest, cur =>
    let blockLma := b.lma.resolve cur
    let cur2 := match b.alignment with
      | some align => alignUp blockLma align
      | none => blockLma
    ([[], strLit "    /* Block: " ++ b.block_type ++ strLit " @ LMA " ++ hex010 cur2
        ++ strLit " */"]
      ++ b.regions.flatMap fun r => emitRegion r cur2 (r.vma.resolve 0) cfg)
    ++ blocksGo cfg rest cur2

def headerLines (cfg : LinkerScriptConfig) : List Str :=
  [strLit "/* Auto-generated from SAG file */",
   strLit "/* Config: " ++ debugStr cfg.name ++ strLit " */",
   [],
   strLit "OUTPUT_ARCH(riscv)",
   strLit "ENTRY(_start)",
   []]

def memoryLines (cfg : LinkerScriptConfig) : List Str :=
  [strLit "MEMORY", strLit "\x7b"]
  ++ (cfg.memory_regions.map fun p =>
      strLit "    " ++ p.1 ++ strLit " (" ++ p.2.attributes ++ strLit ") : ORIGIN = "
        ++ hex010 p.2.origin ++ strLit ", LENGTH = " ++ formatSize p.2.length)
  ++ [strLit "\x7d", []]

def stackLines (sag : SagFile) : List Str :=
  match findStack sag with
  | some v => [strLit "__stack_top = " ++ hex010 v ++ strLit ";", []]
  | none => []

def toLinkerScriptLines (sag : SagFile) (cfg : LinkerScriptConfig) : List Str :=
  headerLines cfg ++ memoryLines cfg ++ stackLines sag
  ++ [strLit "SECTIONS", strLit "\x7b"]
  ++ blocksGo cfg sag.blocks 0
  ++ [[], strLit "    PROVIDE(_end = .);", strLit "    PROVIDE(end = .);", strLit "\x7d"]

/-- Each emitted line is terminated by a newline (`writeln!`). -/
def joinLines (ls : List Str) : Str := ls.flatMap fun l => l ++ ['\n']

/-- `SagFile::to_linker_script`. -/
def toLinkerScript (sag : SagFile) (cfg : LinkerScriptConfig) : Str :=
  joinLines (toLinkerScriptLines sag cfg)

/-- The AE350 DDR preset (`LinkerScriptConfig::ae350_ddr`), insertion order. -/
def ae350_ddr : LinkerScriptConfig :=
  { name := strLit "AE350 DDR",
    memory_regions :=
      [(strLit "FLASH", ⟨0x80000000, 256 * 1024 * 1024, strLit "rx"⟩),
       (strLit "DDR", ⟨0x00000000, 128 * 1024 * 1024, strLit "rwx"⟩)] }

/-- The AE350 ILM preset (`LinkerScriptConfig::ae350_ilm`), insertion order. -/
def ae350_ilm : LinkerScriptConfig :=
  { name := strLit "AE350 ILM",
    memory_regions :=
      [(strLit "FLASH", ⟨0x80000000, 256 * 1024 * 1024, strLit "rx"⟩),
       (strLit "ILM", ⟨0xA0000000, 2 * 1024 * 1024, strLit "rwx"⟩)] }

/-! Generator claim theorems. -/

/-- Claim C2: `to_linker_script` is a total pure function of the AST and the
configuration: for every AST value (including zero blocks, and blocks carrying
any alignment value, whose alignment arithmetic wraps modulo 2^64) it produces
output, and the output is always a syntactically complete skeleton: the fixed
header lines at the start and the PROVIDE/closing-brace footer at the end, the
text being the newline-joining of the emitted lines. -/
theorem c2_generation_total (sag : SagFile) (cfg : LinkerScriptConfig) :
    ∃ body : List Str,
      toLinkerScriptLines sag cfg =
        headerLines cfg ++ body
          ++ [[], strLit "    PROVIDE(_end = .);", strLit "    PROVIDE(end = .);",
              strLit "\x7d"] ∧
      toLinkerScript sag cfg = joinLines (toLinkerScriptLines sag cfg) :=
  ⟨memoryLines cfg ++ stackLines sag ++ [strLit "SECTIONS", strLit "\x7b"]
      ++ blocksGo cfg sag.blocks 0,
    by simp only [toLinkerScriptLines, List.append_assoc], rfl⟩

/-- Comma-joining of a token list, the inverse of splitting on commas. -/
def joinComma : List Str → Str
  | [] => []
  | [t] => t
  | t :: ts => t ++ ',' :: joinComma ts

lemma splitPred_no_sep (p : Char → Bool) (t : Str) (h : ∀ c ∈ t, p c = false) :
    splitPred p t = [t] := by
  induction t with
  | nil => rfl
  | cons c cs ih =>
    rw [splitPred, if_neg (by simp [h c (by simp)])]
    rw [ih fun x hx => h x (by simp [hx])]

lemma splitPred_sep_append (p : Char → Bool) (t rest : Str) (sep : Char)
    (ht : ∀ c ∈ t, p c = false) (hsep : p sep = true) :
    splitPred p (t ++ sep :: rest) = t :: splitPred p rest := by
  induction t with
  | nil =>
    rw [List.nil_append, splitPred, if_pos (by simp [hsep])]
  | cons c cs ih =>
    rw [List.cons_append, splitPred, if_neg (by simp [ht c (by simp)])]
    rw [ih fun x hx => ht x (by simp [hx])]

lemma splitPred_joinComma (ts : List Str) (hne : ts ≠ [])
    (h : ∀ t ∈ ts, ',' ∉ t) :
    splitPred (fun c => c = ',') (joinComma ts) = ts := by
  induction ts with
  | nil => exact absurd rfl hne
  | cons t ts ih =>
    cases ts with
    | nil =>
      exact splitPred_no_sep _ t fun c hc => by
        simp only [decide_eq_false_iff_not]
        exact fun e => h t (by simp) (e ▸ hc)
    | cons t2 ts2 =>
      show splitPred _ (t ++ ',' :: joinComma (t2 :: ts2)) = t :: (t2 :: ts2)
      rw [splitPred_sep_append _ t _ ','
        (fun c hc => by
          simp only [decide_eq_false_iff_not]
          exact fun e => h t (by simp) (e ▸ hc))
        (by simp)]
      rw [ih (by simp) fun x hx => h x (by simp [hx])]

/-- Claim C6: section-pattern expansion splits on commas, preserving the
left-to-right order (the expansion of a comma-joining of tokens is the
concatenation of the per-token expansions); the four macros expand to their
fixed ordered stem lists (+RO to text, rodata, srodata, in that order,
regardless of surrounding tokens); a dotted token loses its leading dot; and
any other token passes through verbatim. -/
theorem c6_expand_section_pattern :
    (∀ ts : List Str, ts ≠ [] → (∀ t ∈ ts, ',' ∉ t) →
      expandSectionPattern (joinComma ts) = ts.flatMap expandOne) ∧
    expandOne (strLit "+RO") = [strLit "text", strLit "rodata", strLit "srodata"] ∧
    expandOne (strLit "+ISR") = [strLit "vectors", strLit "isr"] ∧
    expandOne (strLit "+RW") = [strLit "data", strLit "sdata"] ∧
    expandOne (strLit "+ZI") = [strLit "bss", strLit "sbss"] ∧
    (∀ t : Str, (∀ c ∈ t, isWs c = false) → expandOne ('.' :: t) = [t]) ∧
    (∀ t : Str, (∀ c ∈ t, isWs c = false) →
      t ∉ [strLit "+ISR", strLit "+RO", strLit "+RW", strLit "+ZI"] →
      List.isPrefixOf ['.'] t = false → expandOne t = [t]) := by
  refine ⟨?_, rfl, rfl, rfl, rfl, ?_, ?_⟩
  · intro ts hne h
    unfold expandSectionPattern
    rw [splitPred_joinComma ts hne h]
  · intro t ht
    have htrim : trimChars ('.' :: t) = '.' :: t := by
      refine trimChars_eq_self _ ?_
      intro x hx
      rcases hx with _ | ⟨_, hx⟩
      · exact isWs_false_of_ge _ (by decide)
      · exact ht x hx
    unfold expandOne
    simp only [htrim]
    rw [if_neg (by simp [strLit]), if_neg (by simp [strLit]), if_neg (by simp [strLit]),
      if_neg (by simp [strLit]), if_pos (by simp [List.isPrefixOf])]
    simp
  · intro t ht hmac hdot
    have htrim : trimChars t = t := trimChars_eq_self _ ht
    simp only [List.mem_cons, List.not_mem_nil, or_false, not_or] at hmac
    obtain ⟨h1, h2, h3, h4⟩ := hmac
    unfold expandOne
    simp only [htrim]
    rw [if_neg h1, if_neg h2, if_neg h3, if_neg h4, if_neg (by simp [hdot])]

/-- Witness for the C6 theorem at a concrete pattern with a macro between a
dotted and a verbatim token. -/
theorem c6_witness :
    expandSectionPattern (strLit ".foo,+RO,bar") =
      [strLit "foo", strLit "text", strLit "rodata", strLit "srodata", strLit "bar"] := by
  have hj : joinComma [strLit ".foo", strLit "+RO", strLit "bar"] = strLit ".foo,+RO,bar" := by
    decide
  have h := c6_expand_section_pattern.1 [strLit ".foo", strLit "+RO", strLit "bar"]
    (by decide) (by decide)
  rw [hj] at h
  rw [h]
  decide

/-! Erasure of the `next` flag, for the noninterference claim C8. -/

def eraseNextDir : Directive → Directive
  | .Addr s _ => .Addr s false
  | .LoadAddr s _ => .LoadAddr s false
  | d => d

def eraseNextRegion (r : Region) : Region :=
  ⟨r.name, r.vma, r.directives.map eraseNextDir⟩

def eraseNextBlock (b : Block) : Block :=
  ⟨b.block_type, b.lma, b.alignment, b.regions.map eraseNextRegion⟩

def eraseNextFile (sag : SagFile) : SagFile :=
  ⟨sag.user_sections, sag.blocks.map eraseNextBlock⟩

lemma stackOf_erase (d : Directive) : stackOf (eraseNextDir d) = stackOf d := by
  cases d <;> rfl

lemma findSome?_stack_dirs (ds : List Directive) :
    (ds.map eraseNextDir).findSome? stackOf = ds.findSome? stackOf := by
  induction ds with
  | nil => rfl
  | cons d ds ih =>
    rw [List.map_cons, List.findSome?_cons, List.findSome?_cons, stackOf_erase]
    cases stackOf d <;> simp [ih]

lemma findSome?_stack_regions (l : List Region) :
    (l.map eraseNextRegion).findSome?
        (fun r => r.directives.findSome? stackOf) =
      l.findSome? fun r => r.directives.findSome? stackOf := by
  induction l with
  | nil => rfl
  | cons r l ih =>
    rw [List.map_cons, List.findSome?_cons, List.findSome?_cons]
    have hr : (eraseNextRegion r).directives.findSome? stackOf =
        r.directives.findSome? stackOf := findSome?_stack_dirs r.directives
    rw [hr]
    cases r.directives.findSome? stackOf <;> simp [ih]

lemma findStack_erase (sag : SagFile) : findStack (eraseNextFile sag) = findStack sag := by
  unfold findStack eraseNextFile
  simp only []
  induction sag.blocks with
  | nil => rfl
  | cons b bs ih =>
    rw [List.map_cons, List.findSome?_cons, List.findSome?_cons]
    have hb : (eraseNextBlock b).regions.findSome?
        (fun r => r.directives.findSome? stackOf) =
        b.regions.findSome? fun r => r.directives.findSome? stackOf :=
      findSome?_stack_regions b.regions
    rw [hb]
    cases b.regions.findSome? fun r => r.directives.findSome? stackOf <;> simp [ih]

lemma emitDirectiveLines_erase (nm : Str) (lma : Nat) (mem : Str) (rip : Bool)
    (d : Directive) :
    emitDirectiveLines nm lma mem rip (eraseNextDir d) =
      emitDirectiveLines nm lma mem rip d := by
  cases d <;> rfl

lemma emitRegion_erase (r : Region) (lma vma : Nat) (cfg : LinkerScriptConfig) :
    emitRegion (eraseNextRegion r) lma vma cfg = emitRegion r lma vma cfg := by
  unfold emitRegion emitRegionCore eraseNextRegion
  simp [List.flatMap_map, emitDirectiveLines_erase]

lemma flatMapCongr {α β : Type} {l : List α} {f g : α → List β}
    (h : ∀ a ∈ l, f a = g a) : l.flatMap f = l.flatMap g := by
  induction l with
  | nil => rfl
  | cons a l ih =>
    rw [List.flatMap_cons, List.flatMap_cons, h a (by simp),
      ih fun x hx => h x (by simp [hx])]

lemma blocksGo_erase (cfg : LinkerScriptConfig) (l : List Block) (cur : Nat) :
    blocksGo cfg (l.map eraseNextBlock) cur = blocksGo cfg l cur := by
  induction l generalizing cur with
  | nil => rfl
  | cons b bs ih =>
    rw [List.map_cons, blocksGo, blocksGo]
    have hregions : (eraseNextBlock b).regions = b.regions.map eraseNextRegion := rfl
    have hlma : (eraseNextBlock b).lma = b.lma := rfl
    have halign : (eraseNextBlock b).alignment = b.alignment := rfl
    have hbt : (eraseNextBlock b).block_type = b.block_type := rfl
    rw [hregions, hlma, halign, hbt, ih]
    congr 2
    rw [List.flatMap_map]
    refine flatMapCongr fun r _ => ?_
    have hv : (eraseNextRegion r).vma = r.vma := rfl
    rw [hv, emitRegion_erase]

/-- Claim C8: the `next` flag on `Addr` and `LoadAddr` directives does not
alter generation: erasing every `next` flag leaves the output unchanged, and
consequently any two ASTs that agree after erasing `next` flags (i.e. differ
only in `next`) generate identical linker-script text over any configuration. -/
theorem c8_next_noninterference :
    (∀ (sag : SagFile) (cfg : LinkerScriptConfig),
      toLinkerScript (eraseNextFile sag) cfg = toLinkerScript sag cfg) ∧
    (∀ (sag1 sag2 : SagFile) (cfg : LinkerScriptConfig),
      eraseNextFile sag1 = eraseNextFile sag2 →
      toLinkerScript sag1 cfg = toLinkerScript sag2 cfg) := by
  have herase : ∀ (sag : SagFile) (cfg : LinkerScriptConfig),
      toLinkerScript (eraseNextFile sag) cfg = toLinkerScript sag cfg := by
    intro sag cfg
    have h1 : stackLines (eraseNextFile sag) = stackLines sag := by
      unfold stackLines
      rw [findStack_erase]
    have h2 : blocksGo cfg (eraseNextFile sag).blocks 0 = blocksGo cfg sag.blocks 0 :=
      blocksGo_erase cfg sag.blocks 0
    unfold toLinkerScript toLinkerScriptLines
    rw [h1, h2]
  refine ⟨herase, fun sag1 sag2 cfg he => ?_⟩
  rw [← herase sag1 cfg, he, herase sag2 cfg]

/-- Witness for C8: two one-directive files differing only in the `next` flag
generate identical text over the DDR preset. -/
theorem c8_witness :
    toLinkerScript ⟨[], [⟨strLit "EXEC", .Absolute 0, none,
        [⟨strLit "CODE", .Absolute 0, [.Addr (strLit "sym") true]⟩]⟩]⟩ ae350_ddr =
    toLinkerScript ⟨[], [⟨strLit "EXEC", .Absolute 0, none,
        [⟨strLit "CODE", .Absolute 0, [.Addr (strLit "sym") false]⟩]⟩]⟩ ae350_ddr := by
  exact c8_next_noninterference.2 _ _ ae350_ddr (by decide)

/-- Claim C10: when both the resolved virtual address and the resolved load
address lie outside every configured memory region, the containment lookup
returns none for both, the region is treated as running in place (equality of
the two none lookups), and emission falls back to the literal region name RAM:
`emit_region` equals the core emission with memory region RAM and the
runs-in-place flag set. -/
theorem c10_outside_fallback (cfg : LinkerScriptConfig) (r : Region) (lma vma : Nat)
    (hv : ∀ p ∈ cfg.memory_regions,
        ¬(p.2.origin ≤ vma ∧ vma < wadd p.2.origin p.2.length))
    (hl : ∀ p ∈ cfg.memory_regions,
        ¬(p.2.origin ≤ lma ∧ lma < wadd p.2.origin p.2.length)) :
    vmaToRegion cfg vma = none ∧ vmaToRegion cfg lma = none ∧
    emitRegion r lma vma cfg = emitRegionCore r lma vma (strLit "RAM") true := by
  have h1 : vmaToRegion cfg vma = none := by
    unfold vmaToRegion
    rw [List.findSome?_eq_none_iff]
    intro p hp
    simp [hv p hp]
  have h2 : vmaToRegion cfg lma = none := by
    unfold vmaToRegion
    rw [List.findSome?_eq_none_iff]
    intro p hp
    simp [hl p hp]
  refine ⟨h1, h2, ?_⟩
  unfold emitRegion
  rw [h1, h2]
  rfl

/-- Witness for C10: address 0x70000000 lies outside both regions of the DDR
preset, so a region there is emitted against RAM, running in place. -/
theorem c10_witness :
    vmaToRegion ae350_ddr 0x70000000 = none ∧
    emitRegion ⟨strLit "BUF", .Absolute 0x70000000, [.Section (strLit "+RW") false]⟩
        0x70000000 0x70000000 ae350_ddr =
      emitRegionCore ⟨strLit "BUF", .Absolute 0x70000000, [.Section (strLit "+RW") false]⟩
        0x70000000 0x70000000 (strLit "RAM") true := by
  have h := c10_outside_fallback ae350_ddr
    ⟨strLit "BUF", .Absolute 0x70000000, [.Section (strLit "+RW") false]⟩
    0x70000000 0x70000000 (by decide) (by decide)
  exact ⟨h.1, h.2.2⟩

/-! First-stack-in-document-order machinery for claim C4. -/

/-- Specification-side description of which stack value the global symbol uses:
the head of the list of all `Stack` values in document order, document order
being block order, then region order, then directive order. -/
def firstStackSpec (sag : SagFile) : Option Nat :=
  (((sag.blocks.flatMap Block.regions).flatMap Region.directives).filterMap stackOf).head?

/-- The local stack-top assignment line a `Stack` directive emits inside its
region. -/
def mkStackLocal (a : Nat) : Str := strLit "    __stack_top = " ++ hex010 a ++ strLit ";"

/-- The local stack-top lines of one region, one per `Stack` directive, in
order, duplicates preserved. -/
def localStackLines (r : Region) : List Str :=
  r.directives.filterMap fun d => (stackOf d).map mkStackLocal

lemma findSome?_eq_head?_filterMap {α β : Type} (f : α → Option β) (l : List α) :
    l.findSome? f = (l.filterMap f).head? := by
  induction l with
  | nil => rfl
  | cons a l ih =>
    rw [List.findSome?_cons, List.filterMap_cons]
    cases h : f a with
    | none => simp only []; exact ih
    | some b => rfl

lemma findSome?_head?_flatMap {α β : Type} (g : α → List β) (l : List α) :
    (l.findSome? fun a => (g a).head?) = (l.flatMap g).head? := by
  induction l with
  | nil => rfl
  | cons a l ih =>
    rw [List.findSome?_cons, List.flatMap_cons, List.head?_append]
    cases h : (g a).head? <;> simp [h, ih]

lemma filterMapFlatMap {α β γ : Type} (l : List α) (g : α → List β) (f : β → Option γ) :
    (l.flatMap g).filterMap f = l.flatMap fun a => (g a).filterMap f := by
  induction l with
  | nil => rfl
  | cons a l ih =>
    rw [List.flatMap_cons, List.filterMap_append, ih, List.flatMap_cons]

lemma sublist_stack_dirs (ds : List Directive) (nm : Str) (lma : Nat) (mem : Str)
    (rip : Bool) :
    (ds.filterMap fun d => (stackOf d).map mkStackLocal).Sublist
      (ds.flatMap (emitDirectiveLines nm lma mem rip)) := by
  induction ds with
  | nil => simp
  | cons d ds ih =>
    rw [List.filterMap_cons, List.flatMap_cons]
    cases d with
    | Stack a =>
      show (mkStackLocal a :: _).Sublist (mkStackLocal a :: _)
      exact ih.cons₂ _
    | Addr s n =>
      show List.Sublist _ (_ ++ _)
      exact ih.trans (List.sublist_append_right _ _)
    | LoadAddr s n =>
      show List.Sublist _ (_ ++ _)
      exact ih.trans (List.sublist_append_right _ _)
    | Section p k =>
      show List.Sublist _ (_ ++ _)
      exact ih.trans (List.sublist_append_right _ _)

/-- Claim C4: the global stack symbol uses the FIRST `Stack` directive in
document order: `find_stack` equals the head of the flattened document-order
list of stack values; when it is present the global-symbol step emits exactly
the one assignment line (followed by a blank line); and inside every region
each `Stack` directive additionally contributes its own local assignment line,
in order and without deduplication (the list of local stack lines, one per
directive, is a subsequence of the region's emitted lines). -/
theorem c4_stack_first_and_locals (sag : SagFile) (cfg : LinkerScriptConfig) :
    findStack sag = firstStackSpec sag ∧
    (∀ v : Nat, findStack sag = some v →
      stackLines sag = [strLit "__stack_top = " ++ hex010 v ++ strLit ";", []]) ∧
    (∀ (r : Region) (lma vma : Nat),
      (localStackLines r).Sublist (emitRegion r lma vma cfg)) := by
  refine ⟨?_, ?_, ?_⟩
  · unfold findStack firstStackSpec
    rw [filterMapFlatMap, List.flatMap_assoc, ← findSome?_head?_flatMap]
    refine congrArg (fun f => List.findSome? f sag.blocks) ?_
    funext b
    rw [← findSome?_head?_flatMap]
    refine congrArg (fun f => List.findSome? f b.regions) ?_
    funext r
    exact findSome?_eq_head?_filterMap stackOf r.directives
  · intro v h
    unfold stackLines
    rw [h]
  · intro r lma vma
    unfold emitRegion emitRegionCore localStackLines
    refine List.Sublist.trans ?_ (List.sublist_append_right _ _)
    exact sublist_stack_dirs r.directives r.name lma _ _

/-- Witness for C4 at a file with two `Stack` directives: the global symbol
takes the first one in document order. -/
theorem c4_witness :
    findStack ⟨[], [⟨strLit "MEM", .Absolute 0, none,
        [⟨strLit "SYS", .Absolute 0,
          [.Stack 0x9FF00000, .Stack 0x100]⟩]⟩]⟩ = some 0x9FF00000 ∧
    stackLines ⟨[], [⟨strLit "MEM", .Absolute 0, none,
        [⟨strLit "SYS", .Absolute 0,
          [.Stack 0x9FF00000, .Stack 0x100]⟩]⟩]⟩ =
      [strLit "__stack_top = 0x9FF00000;", []] ∧
    (localStackLines ⟨strLit "SYS", .Absolute 0,
        [.Stack 0x9FF00000, .Stack 0x100]⟩).Sublist
      (emitRegion ⟨strLit "SYS", .Absolute 0,
        [.Stack 0x9FF00000, .Stack 0x100]⟩ 0 0 ae350_ddr) := by
  have h := c4_stack_first_and_locals
    ⟨[], [⟨strLit "MEM", .Absolute 0, none,
      [⟨strLit "SYS", .Absolute 0, [.Stack 0x9FF00000, .Stack 0x100]⟩]⟩]⟩ ae350_ddr
  have h1 : findStack ⟨[], [⟨strLit "MEM", .Absolute 0, none,
      [⟨strLit "SYS", .Absolute 0, [.Stack 0x9FF00000, .Stack 0x100]⟩]⟩]⟩ =
      some 0x9FF00000 := by decide
  have h2 := h.2.1 0x9FF00000 h1
  have h3 : (strLit "__stack_top = " ++ hex010 0x9FF00000 ++ strLit ";" : Str) =
      strLit "__stack_top = 0x9FF00000;" := by decide
  exact ⟨h1, by rw [h2, h3], h.2.2 _ 0 0⟩

/-! The parser: a state machine with one cursor over the list of source lines
(`Parser { lines, current }`); functions take the fixed line list and the
0-based cursor and return the updated cursor; error line numbers are 1-based
(`line_number() = current + 1`). -/

/-- `skip_empty_and_comments`: advance while the comment-stripped trimmed
current line is empty. -/
def skipEmpty (lines : List Str) (i : Nat) : Nat :=
  if h : i < lines.length then
    if stripLine (lines.get ⟨i, h⟩) = [] then skipEmpty lines (i + 1) else i
  else i
  termination_by lines.length - i

/-- Whether an `Except` value is an error. -/
def isError {E A : Type} : Except E A → Bool
  | .error _ => true
  | .ok _ => false

lemma mem_drop_of_get? (lines : List Str) (i j : Nat) (l : Str) (hij : i ≤ j)
    (h : lines.get? j = some l) : l ∈ lines.drop i := by
  have h0 : (lines.drop i).get? (j - i) = some l := by
    rw [List.get?_drop]
    rwa [show i + (j - i) = j by omega]
  exact List.get?_mem h0

lemma drop_succ_subset (lines : List Str) (i : Nat) :
    lines.drop (i + 1) ⊆ lines.drop i := by
  rw [show i + 1 = i + 1 from rfl, ← List.drop_drop]
  exact List.drop_subset _ _

lemma skipEmpty_ge (lines : List Str) (i : Nat) : i ≤ skipEmpty lines i := by
  induction i using skipEmpty.induct lines with
  | case1 i h hl ih =>
    rw [skipEmpty, dif_pos h, if_pos hl]
    omega
  | case2 i h hl =>
    rw [skipEmpty, dif_pos h, if_neg hl]
  | case3 i h =>
    rw [skipEmpty, dif_neg h]

lemma skipEmpty_all_blank (lines : List Str) (i : Nat) (hle : i ≤ lines.length)
    (h : ∀ l ∈ lines.drop i, stripLine l = []) :
    skipEmpty lines i = lines.length := by
  induction i using skipEmpty.induct lines with
  | case1 i hlt hl ih =>
    rw [skipEmpty, dif_pos hlt, if_pos hl]
    exact ih (by omega) fun x hx => h x (drop_succ_subset lines i hx)
  | case2 i hlt hl =>
    exact absurd (h _ (mem_drop_of_get? lines i i _ (le_refl i)
      (List.get?_eq_get hlt))) hl
  | case3 i hlt =>
    rw [skipEmpty, dif_neg hlt]
    omega

/-- `parse_directive`: recognize `ADDR`, `LOADADDR`, `STACK`, or a `*` section
rule; unrecognized lines yield no directive. The `*` rule extracts the text
between the first opening and the last closing parenthesis; when the closing
parenthesis precedes the opening one the source program aborts on an invalid
slice, which is modelled by clamping to the empty pattern. -/
def rfindIdx? (c : Char) (s : Str) : Option Nat :=
  match List.findIdx? (fun x => x = c) s.reverse with
  | some k => some (s.length - 1 - k)
  | none => none

def parseDirective (lineNum : Nat) (l0 : Str) : Except SagError (Option Directive) :=
  let l := trimChars l0
  if List.isPrefixOf (strLit "ADDR") l then
    let rest := trimChars (l.drop 4)
    if List.isPrefixOf (strLit "NEXT") rest then
      .ok (some (.Addr (trimChars (rest.drop 4)) true))
    else
      .ok (some (.Addr rest false))
  else if List.isPrefixOf (strLit "LOADADDR") l then
    let rest := trimChars (l.drop 8)
    if List.isPrefixOf (strLit "NEXT") rest then
      .ok (some (.LoadAddr (trimChars (rest.drop 4)) true))
    else
      .ok (some (.LoadAddr rest false))
  else if List.isPrefixOf (strLit "STACK") l then
    let rest0 := trimChars (l.drop 5)
    let rest := trimChars (if List.isPrefixOf ['='] rest0 then rest0.drop 1 else rest0)
    let addr? :=
      if List.isPrefixOf (strLit "0x") rest || List.isPrefixOf (strLit "0X") rest then
        parseU64 16 (rest.drop 2)
      else parseU64 10 rest
    match addr? with
    | some a => .ok (some (.Stack a))
    | none => .error (.Parse lineNum (strLit "Invalid stack address"))
  else if List.isPrefixOf ['*'] l then
    let rest0 := trimChars (l.drop 1)
    let keep := List.isPrefixOf (strLit "KEEP") rest0
    let rest := if keep then trimChars (rest0.drop 4) else rest0
    match List.findIdx? (fun x => x = '(') rest, rfindIdx? ')' rest with
    | some st, some en =>
      let pattern := trimChars ((rest.drop (st + 1)).take (en - (st + 1)))
      .ok (some (.Section pattern keep))
    | _, _ => .ok none
  else
    .ok none

/-- The directive loop of `try_parse_region`: skip blanks; at end of input
fail; a line starting with a closing brace ends the region; otherwise parse a
directive (appending it if one is recognized) and advance. -/
def directLoop (lines : List Str) (i : Nat) (acc : List Directive) :
    Except SagError (List Directive × Nat) :=
  let j := skipEmpty lines i
  if hj : j < lines.length then
    let l2 := stripLine (lines.get ⟨j, hj⟩)
    if List.isPrefixOf ['\x7d'] l2 then .ok (acc, j + 1)
    else
      match parseDirective (j + 1) l2 with
      | .error e => .error e
      | .ok (some d) => directLoop lines (j + 1) (acc ++ [d])
      | .ok none => directLoop lines (j + 1) acc
  else .error (.Parse (j + 1) (strLit "Unexpected end of file in region"))
  termination_by lines.length - i
  decreasing_by
    · have := skipEmpty_ge lines i
      omega
    · have := skipEmpty_ge lines i
      omega

lemma directLoop_gt (lines : List Str) (i : Nat) (acc : List Directive)
    (ds : List Directive) (k : Nat) (h : directLoop lines i acc = .ok (ds, k)) :
    i < k := by
  induction i, acc using directLoop.induct lines with
  | case1 i acc j hj l2 hbrace =>
    rw [directLoop, dif_pos hj, if_pos hbrace] at h
    have hge := skipEmpty_ge lines i
    cases h
    omega
  | case2 i acc j hj l2 hbrace e hd =>
    rw [directLoop, dif_pos hj, if_neg hbrace, hd] at h
    cases h
  | case3 i acc j hj l2 hbrace d hd ih =>
    rw [directLoop, dif_pos hj, if_neg hbrace, hd] at h
    have hge := skipEmpty_ge lines i
    have := ih h
    omega
  | case4 i acc j hj l2 hbrace hd ih =>
    rw [directLoop, dif_pos hj, if_neg hbrace, hd] at h
    have hge := skipEmpty_ge lines i
    have := ih h
    omega
  | case5 i acc j hj =>
    rw [directLoop, dif_neg hj] at h
    cases h

/-- Whether the first character of a token is an ASCII uppercase letter
(`name.chars().next().map(is_ascii_uppercase).unwrap_or(false)`). -/
def upperStart (name : Str) : Bool :=
  match name.head? with
  | some c => 65 ≤ c.toNat && c.toNat ≤ 90
  | none => false

/-- `try_parse_region`: accept the current line as a region header only if it
has at least two whitespace tokens, the first token starts with an ASCII
uppercase letter, the first token is not a reserved directive keyword, and the
second token parses as an address; on acceptance require an opening brace and
parse directives; any rejected line leaves the cursor unchanged and produces
no region (the caller advances). -/
def tryParseRegion (lines : List Str) (i : Nat) :
    Except SagError (Option Region × Nat) :=
  match lines.get? i with
  | none => .ok (none, i)
  | some l0 =>
    match wordsOf (stripLine l0) with
    | name :: addrTok :: _ =>
      if upperStart name = false then .ok (none, i)
      else if name = strLit "ADDR" ∨ name = strLit "LOADADDR" ∨ name = strLit "STACK" then
        .ok (none, i)
      else
        match Address.parse addrTok with
        | .error _ => .ok (none, i)
        | .ok vma =>
          match lines.get? (skipEmpty lines (i + 1)) with
          | none =>
            .error (.Parse (skipEmpty lines (i + 1) + 1) (strLit "Expected \x27\x7b\x27"))
          | some lb =>
            if List.isPrefixOf ['\x7b'] (trimChars lb) then
              match directLoop lines (skipEmpty lines (i + 1) + 1) [] with
              | .error e => .error e
              | .ok (ds, k) => .ok (some ⟨name, vma, ds⟩, k)
            else
              .error (.Parse (skipEmpty lines (i + 1) + 1)
                (strLit "Expected \x27\x7b\x27 after region"))
    | _ => .ok (none, i)

lemma tryParseRegion_some_gt (lines : List Str) (i : Nat) (r : Region) (k : Nat)
    (h : tryParseRegion lines i = .ok (some r, k)) : i < k := by
  unfold tryParseRegion at h
  split at h
  · exact absurd h (by simp)
  · split at h
    · split at h
      · exact absurd h (by simp)
      · split at h
        · exact absurd h (by simp)
        · split at h
          · exact absurd h (by simp)
          · split at h
            · exact absurd h (by simp)
            · split at h
              · split at h
                · exact absurd h (by simp)
                · rename_i ds k2 hd
                  simp only [Except.ok.injEq, Prod.mk.injEq] at h
                  obtain ⟨-, hk⟩ := h
                  subst hk
                  have h1 := directLoop_gt _ _ _ _ _ hd
                  have h2 := skipEmpty_ge lines (i + 1)
                  omega
              · exact absurd h (by simp)
    · exact absurd h (by simp)

/-- The region loop of `try_parse_block`: skip blanks; at end of input fail; a
closing brace ends the block; otherwise try to parse a region, advancing past
the rejected line when no region is recognized (`try_parse_region` leaves the
cursor unchanged in that case). -/
def regionsLoop (lines : List Str) (i : Nat) (acc : List Region) :
    Except SagError (List Region × Nat) :=
  let j := skipEmpty lines i
  if hj : j < lines.length then
    if List.isPrefixOf ['\x7d'] (stripLine (lines.get ⟨j, hj⟩)) then .ok (acc, j + 1)
    else
      match hr : tryParseRegion lines j with
      | .error e => .error e
      | .ok (some r, k) => regionsLoop lines k (acc ++ [r])
      | .ok (none, _) => regionsLoop lines (j + 1) acc
  else
    .error (.Parse (j + 1) (strLit "Unexpected end of file, expected \x27\x7d\x27"))
  termination_by lines.length - i
  decreasing_by
    · have h1 := tryParseRegion_some_gt lines (skipEmpty lines i) r k hr
      have h2 := skipEmpty_ge lines i
      omega
    · have := skipEmpty_ge lines i
      omega

lemma regionsLoop_gt (lines : List Str) (i : Nat) (acc rs : List Region) (k : Nat)
    (h : regionsLoop lines i acc = .ok (rs, k)) : i < k := by
  induction i, acc using regionsLoop.induct lines with
  | case1 i acc j hj hbrace =>
    rw [regionsLoop, dif_pos hj, if_pos hbrace] at h
    have hge := skipEmpty_ge lines i
    cases h
    omega
  | case2 i acc j hj hbrace e hr =>
    rw [regionsLoop, dif_pos hj, if_neg hbrace, hr] at h
    cases h
  | case3 i acc j hj hbrace r k2 hr ih =>
    rw [regionsLoop, dif_pos hj, if_neg hbrace, hr] at h
    have h1 := tryParseRegion_some_gt lines (skipEmpty lines i) r k2 hr
    have h2 := skipEmpty_ge lines i
    have := ih h
    omega
  | case4 i acc j hj hbrace k2 hr ih =>
    rw [regionsLoop, dif_pos hj, if_neg hbrace, hr] at h
    have hge := skipEmpty_ge lines i
    have := ih h
    omega
  | case5 i acc j hj =>
    rw [regionsLoop, dif_neg hj] at h
    cases h

/-- The five block keywords, tried in order by prefix match. -/
def blockTypes : List Str :=
  [strLit "HEAD", strLit "MEM", strLit "LDSECTION", strLit "EXEC", strLit "DATA"]

/-- The first block keyword the line starts with, paired with the trimmed
remainder of the line. -/
def findBlockType (l : Str) : Option (Str × Str) :=
  blockTypes.findSome? fun bt =>
    if List.isPrefixOf bt l then some (bt, trimChars (l.drop bt.length)) else none

/-- The alignment step of `try_parse_block`: after removing the address token,
when at least two tokens remain and the first is ALIGN (ASCII-case-insensitive),
the second must parse as an unsigned integer; a malformed value is a `Parse`
error at the block-header line. -/
def parseAlignment (lineNum : Nat) (parts : List Str) : Except SagError (Option Nat) :=
  match parts with
  | kw :: v :: _ =>
    if eqIgnoreAsciiCase kw (strLit "ALIGN") then
      match parseU64 10 v with
      | some a => .ok (some a)
      | none => .error (.Parse lineNum (strLit "Invalid alignment value"))
    else .ok none
  | _ => .ok none

/-- `try_parse_block`: recognize a block keyword, parse the mandatory address
and the optional alignment, require an opening brace, and parse regions until
the closing brace. -/
def tryParseBlock (lines : List Str) (i : Nat) :
    Except SagError (Option Block × Nat) :=
  match lines.get? i with
  | none => .ok (none, i)
  | some l0 =>
    match findBlockType (stripLine l0) with
    | none => .ok (none, i)
    | some (bt, rest) =>
      match wordsOf rest with
      | [] => .error (.Parse (i + 1) (strLit "Expected address after block type"))
      | addrTok :: parts =>
        match Address.parse addrTok with
        | .error e => .error e
        | .ok lma =>
          match parseAlignment (i + 1) parts with
          | .error e => .error e
          | .ok alignment =>
            match lines.get? (skipEmpty lines (i + 1)) with
            | none =>
              .error (.Parse (skipEmpty lines (i + 1) + 1) (strLit "Expected \x27\x7b\x27"))
            | some lb =>
              if List.isPrefixOf ['\x7b'] (trimChars lb) then
                match regionsLoop lines (skipEmpty lines (i + 1) + 1) [] with
                | .error e => .error e
                | .ok (rs, k) => .ok (some ⟨bt, lma, alignment, rs⟩, k)
              else
                .error (.Parse (skipEmpty lines (i + 1) + 1) (strLit "Expected \x27\x7b\x27"))

lemma tryParseBlock_some_gt (lines : List Str) (i : Nat) (b : Block) (k : Nat)
    (h : tryParseBlock lines i = .ok (some b, k)) : i < k := by
  unfold tryParseBlock at h
  split at h
  · exact absurd h (by simp)
  · split at h
    · exact absurd h (by simp)
    · split at h
      · exact absurd h (by simp)
      · split at h
        · exact absurd h (by simp)
        · split at h
          · exact absurd h (by simp)
          · split at h
            · exact absurd h (by simp)
            · split at h
              · split at h
                · exact absurd h (by simp)
                · rename_i rs k2 hr
                  simp only [Except.ok.injEq, Prod.mk.injEq] at h
                  obtain ⟨-, hk⟩ := h
                  subst hk
                  have h1 := regionsLoop_gt _ _ _ _ _ hr
                  have h2 := skipEmpty_ge lines (i + 1)
                  omega
              · exact absurd h (by simp)

/-- The top-level parse loop: skip blanks; `USER_SECTIONS` lines append one
entry; block keywords start a block; any other non-empty line is skipped with
no error; end of input succeeds. -/
def parseLoop (lines : List Str) (i : Nat) (us : List Str) (bs : List Block) :
    Except SagError SagFile :=
  match lines.get? i with
  | none => .ok ⟨us, bs⟩
  | some _ =>
    match hg : lines.get? (skipEmpty lines i) with
    | none => .ok ⟨us, bs⟩
    | some l0 =>
      if stripLine l0 = [] then parseLoop lines (skipEmpty lines i + 1) us bs
      else if List.isPrefixOf (strLit "USER_SECTIONS") (stripLine l0) then
        parseLoop lines (skipEmpty lines i + 1)
          (us ++ [trimChars ((stripLine l0).drop 13)]) bs
      else
        match hb : tryParseBlock lines (skipEmpty lines i) with
        | .error e => .error e
        | .ok (some b, k) => parseLoop lines k us (bs ++ [b])
        | .ok (none, _) => parseLoop lines (skipEmpty lines i + 1) us bs
  termination_by lines.length - i
  decreasing_by
    · have h1 := skipEmpty_ge lines i
      obtain ⟨hlt, -⟩ := List.get?_eq_some.mp hg
      omega
    · have h1 := skipEmpty_ge lines i
      obtain ⟨hlt, -⟩ := List.get?_eq_some.mp hg
      omega
    · have h1 := skipEmpty_ge lines i
      obtain ⟨hlt, -⟩ := List.get?_eq_some.mp hg
      have h2 := tryParseBlock_some_gt lines (skipEmpty lines i) b k hb
      omega
    · have h1 := skipEmpty_ge lines i
      obtain ⟨hlt, -⟩ := List.get?_eq_some.mp hg
      omega

/-- `SagFile::parse`, over the list of source lines. -/
def SagFile.parse (lines : List Str) : Except SagError SagFile :=
  parseLoop lines 0 [] []

/-! Lemmas for claim C5: an opened block or region body that reaches the end
of the input without a closing brace fails, and never silently succeeds. -/

lemma drop_subset_of_le (lines : List Str) {i j : Nat} (hij : i ≤ j) :
    lines.drop j ⊆ lines.drop i := by
  intro x hx
  rw [show j = i + (j - i) by omega] at hx
  rw [← List.drop_drop] at hx
  exact List.drop_subset _ _ hx

/-- Under no closing-brace line from the cursor on, the directive loop always
fails. -/
lemma directLoop_noclose (lines : List Str) (i : Nat) (acc : List Directive)
    (h : ∀ l ∈ lines.drop i, List.isPrefixOf ['\x7d'] (stripLine l) = false) :
    isError (directLoop lines i acc) = true := by
  induction i, acc using directLoop.induct lines with
  | case1 i acc j hj l2 hbrace =>
    exfalso
    have hge : i ≤ j := skipEmpty_ge lines i
    have hmem : lines.get ⟨j, hj⟩ ∈ lines.drop i :=
      mem_drop_of_get? lines i j _ hge (List.get?_eq_get hj)
    exact absurd hbrace (by simp [h _ hmem])
  | case2 i acc j hj l2 hbrace e hd =>
    rw [directLoop, dif_pos hj, if_neg hbrace, hd]
    rfl
  | case3 i acc j hj l2 hbrace d hd ih =>
    rw [directLoop, dif_pos hj, if_neg hbrace, hd]
    exact ih fun x hx =>
      h x (drop_subset_of_le lines (by have := skipEmpty_ge lines i; omega) hx)
  | case4 i acc j hj l2 hbrace hd ih =>
    rw [directLoop, dif_pos hj, if_neg hbrace, hd]
    exact ih fun x hx =>
      h x (drop_subset_of_le lines (by have := skipEmpty_ge lines i; omega) hx)
  | case5 i acc j hj =>
    rw [directLoop, dif_neg hj]
    rfl

/-- Under no closing-brace line from the cursor on, `try_parse_region` either
rejects the line (cursor unchanged) or fails; it never returns a region. -/
lemma tryParseRegion_noclose (lines : List Str) (i : Nat)
    (h : ∀ l ∈ lines.drop i, List.isPrefixOf ['\x7d'] (stripLine l) = false) :
    tryParseRegion lines i = .ok (none, i) ∨ isError (tryParseRegion lines i) = true := by
  unfold tryParseRegion
  split
  · exact Or.inl rfl
  · split
    · split
      · exact Or.inl rfl
      · split
        · exact Or.inl rfl
        · split
          · exact Or.inl rfl
          · split
            · exact Or.inr rfl
            · split
              · split
                · exact Or.inr rfl
                · rename_i ds k hd
                  exfalso
                  have hl : isError (directLoop lines (skipEmpty lines (i + 1) + 1) [])
                      = true := by
                    refine directLoop_noclose lines _ [] fun x hx => ?_
                    refine h x (drop_subset_of_le lines ?_ hx)
                    have := skipEmpty_ge lines (i + 1)
                    omega
                  rw [hd] at hl
                  cases hl
              · exact Or.inr rfl
    · exact Or.inl rfl

/-- Under no closing-brace line from the cursor on, the region loop always
fails: a block body reaching the end of input never yields a block. -/
lemma regionsLoop_noclose (lines : List Str) (i : Nat) (acc : List Region)
    (h : ∀ l ∈ lines.drop i, List.isPrefixOf ['\x7d'] (stripLine l) = false) :
    isError (regionsLoop lines i acc) = true := by
  induction i, acc using regionsLoop.induct lines with
  | case1 i acc j hj hbrace =>
    exfalso
    have hge : i ≤ j := skipEmpty_ge lines i
    have hmem : lines.get ⟨j, hj⟩ ∈ lines.drop i :=
      mem_drop_of_get? lines i j _ hge (List.get?_eq_get hj)
    exact absurd hbrace (by rw [h _ hmem]; simp)
  | case2 i acc j hj hbrace e hr =>
    rw [regionsLoop, dif_pos hj, if_neg hbrace, hr]
    rfl
  | case3 i acc j hj hbrace r k hr ih =>
    exfalso
    have hge : i ≤ j := skipEmpty_ge lines i
    have hnr := tryParseRegion_noclose lines j fun x hx =>
      h x (drop_subset_of_le lines hge hx)
    rcases hnr with hnr | hnr
    · rw [hr] at hnr
      simp at hnr
    · rw [hr] at hnr
      cases hnr
  | case4 i acc j hj hbrace k hr ih =>
    rw [regionsLoop, dif_pos hj, if_neg hbrace, hr]
    exact ih fun x hx =>
      h x (drop_subset_of_le lines (by have := skipEmpty_ge lines i; omega) hx)
  | case5 i acc j hj =>
    rw [regionsLoop, dif_neg hj]
    rfl

/-- When everything from the cursor to the end of input is blank after comment
stripping, the directive loop fails with the end-of-input `Parse` error at the
line number one past the input. -/
lemma directLoop_eof (lines : List Str) (i : Nat) (acc : List Directive)
    (hle : i ≤ lines.length) (h : ∀ l ∈ lines.drop i, stripLine l = []) :
    directLoop lines i acc =
      .error (.Parse (lines.length + 1) (strLit "Unexpected end of file in region")) := by
  rw [directLoop]
  rw [dif_neg (by rw [skipEmpty_all_blank lines i hle h]; omega)]
  rw [skipEmpty_all_blank lines i hle h]

/-- When everything from the cursor to the end of input is blank after comment
stripping, the region loop fails with the end-of-input `Parse` error at the
line number one past the input. -/
lemma regionsLoop_eof (lines : List Str) (i : Nat) (acc : List Region)
    (hle : i ≤ lines.length) (h : ∀ l ∈ lines.drop i, stripLine l = []) :
    regionsLoop lines i acc =
      .error (.Parse (lines.length + 1)
        (strLit "Unexpected end of file, expected \x27\x7d\x27")) := by
  rw [regionsLoop]
  rw [dif_neg (by rw [skipEmpty_all_blank lines i hle h]; omega)]
  rw [skipEmpty_all_blank lines i hle h]

lemma skipEmpty_of_nonblank (lines : List Str) (i : Nat) (l : Str)
    (hg : lines.get? i = some l) (hnb : ¬stripLine l = []) : skipEmpty lines i = i := by
  obtain ⟨hlt, hget⟩ := List.get?_eq_some.mp hg
  rw [skipEmpty, dif_pos hlt, hget, if_neg hnb]

/-- A whole-input instance: a HEAD block whose body never closes makes
`SagFile::parse` fail, whatever the body lines are. -/
lemma parse_head_noclose (rest : List Str)
    (h : ∀ l ∈ rest, List.isPrefixOf ['\x7d'] (stripLine l) = false) :
    isError (SagFile.parse (strLit "HEAD 0x0" :: strLit "\x7b" :: rest)) = true := by
  have hsk0 : skipEmpty (strLit "HEAD 0x0" :: strLit "\x7b" :: rest) 0 = 0 :=
    skipEmpty_of_nonblank _ 0 (strLit "HEAD 0x0") rfl (by decide)
  have hsk1 : skipEmpty (strLit "HEAD 0x0" :: strLit "\x7b" :: rest) 1 = 1 :=
    skipEmpty_of_nonblank _ 1 (strLit "\x7b") rfl (by decide)
  have hrl : isError (regionsLoop (strLit "HEAD 0x0" :: strLit "\x7b" :: rest) 2 []) =
      true := by
    refine regionsLoop_noclose _ 2 [] fun x hx => h x ?_
    simpa using hx
  have htb : isError (tryParseBlock (strLit "HEAD 0x0" :: strLit "\x7b" :: rest) 0) =
      true := by
    unfold tryParseBlock
    split
    · rename_i heq
      exact absurd heq (by simp)
    · rename_i lb heq
      simp only [List.get?_cons_zero, Option.some.injEq] at heq
      subst heq
      split
      · rename_i heq2
        exact absurd heq2 (by decide)
      · rename_i bt rest2 heq2
        have hbt : bt = strLit "HEAD" ∧ rest2 = strLit "0x0" := by
          have hfb : findBlockType (stripLine (strLit "HEAD 0x0")) =
              some (strLit "HEAD", strLit "0x0") := by decide
          rw [hfb] at heq2
          simpa using heq2.symm
        obtain ⟨hbt1, hbt2⟩ := hbt
        subst hbt1
        subst hbt2
        split
        · rename_i heq3
          exact absurd heq3 (by decide)
        · rename_i addrTok parts heq3
          have haddr : addrTok = strLit "0x0" ∧ parts = [] := by
            have hw : wordsOf (strLit "0x0") = [strLit "0x0"] := by decide
            rw [hw] at heq3
            simpa using heq3.symm
          obtain ⟨ha1, ha2⟩ := haddr
          subst ha1
          subst ha2
          split
          · rename_i e heq4
            rw [show Address.parse (strLit "0x0") = .ok (.Absolute 0) from rfl] at heq4
            cases heq4
          · rename_i vma heq4
            split
            · rename_i e heq5
              rw [show parseAlignment (0 + 1) ([] : List Str) = .ok none from rfl] at heq5
              cases heq5
            · rename_i alignment heq5
              rw [hsk1]
              split
              · rename_i heq6
                exact absurd heq6 (by simp)
              · rename_i lb2 heq6
                have hlb2 : lb2 = strLit "\x7b" := by
                  simpa using heq6.symm
                subst hlb2
                rw [if_pos (by decide)]
                split
                · rfl
                · rename_i rs k hr
                  rw [hr] at hrl
                  cases hrl
  unfold SagFile.parse
  rw [parseLoop]
  split
  · rename_i heq
    exact absurd heq (by simp)
  · rename_i l0 heq
    rw [hsk0] at *
    split
    · rename_i heq2
      exact absurd heq2 (by simp)
    · rename_i l1 heq2
      simp only [List.get?_cons_zero, Option.some.injEq] at heq2
      subst heq2
      rw [if_neg (by decide), if_neg (by decide)]
      split
      · rfl
      · rename_i b k hb
        rw [hb] at htb
        cases htb
      · rename_i k hb
        rw [hb] at htb
        cases htb

/-- Claim C5: an opened block or region body that reaches the end of the input
without a closing brace makes parsing fail, never succeeding with a silently
truncated or empty block or region: under no closing-brace line from the
cursor on, the block's region loop and the region's directive loop always
return an error (parts 1 and 2), and when the remaining lines are all blank
the scan reaches the end of input and fails with the end-of-input `Parse`
error at line `length + 1` (parts 3 and 4, the two cited source checks);
lifting to whole inputs, `SagFile::parse` of a HEAD block whose body has no
closing brace is an error whatever the body lines are (part 5). -/
theorem c5_unclosed_body_fails :
    (∀ (lines : List Str) (i : Nat) (acc : List Region),
      (∀ l ∈ lines.drop i, List.isPrefixOf ['\x7d'] (stripLine l) = false) →
      isError (regionsLoop lines i acc) = true) ∧
    (∀ (lines : List Str) (i : Nat) (acc : List Directive),
      (∀ l ∈ lines.drop i, List.isPrefixOf ['\x7d'] (stripLine l) = false) →
      isError (directLoop lines i acc) = true) ∧
    (∀ (lines : List Str) (i : Nat) (acc : List Region), i ≤ lines.length →
      (∀ l ∈ lines.drop i, stripLine l = []) →
      regionsLoop lines i acc =
        .error (.Parse (lines.length + 1)
          (strLit "Unexpected end of file, expected \x27\x7d\x27"))) ∧
    (∀ (lines : List Str) (i : Nat) (acc : List Directive), i ≤ lines.length →
      (∀ l ∈ lines.drop i, stripLine l = []) →
      directLoop lines i acc =
        .error (.Parse (lines.length + 1)
          (strLit "Unexpected end of file in region"))) ∧
    (∀ rest : List Str,
      (∀ l ∈ rest, List.isPrefixOf ['\x7d'] (stripLine l) = false) →
      isError (SagFile.parse (strLit "HEAD 0x0" :: strLit "\x7b" :: rest)) = true) :=
  ⟨regionsLoop_noclose, directLoop_noclose, regionsLoop_eof, directLoop_eof,
    parse_head_noclose⟩

/-- Witness for C5 at concrete inputs: a block body with a region-like line and
no closing brace fails; an immediately exhausted body fails with the
end-of-input error at line 1; a two-line HEAD block with an unclosed body
fails to parse. -/
theorem c5_witness :
    isError (regionsLoop [strLit "FOO 0x10"] 0 []) = true ∧
    regionsLoop ([] : List Str) 0 [] =
      .error (.Parse 1 (strLit "Unexpected end of file, expected \x27\x7d\x27")) ∧
    isError (SagFile.parse
      [strLit "HEAD 0x0", strLit "\x7b", strLit "BOOT 0x80000000"]) = true := by
  refine ⟨?_, ?_, ?_⟩
  · exact c5_unclosed_body_fails.1 [strLit "FOO 0x10"] 0 [] (by decide)
  · exact c5_unclosed_body_fails.2.2.1 [] 0 [] (by decide) (by decide)
  · exact c5_unclosed_body_fails.2.2.2.2 [strLit "BOOT 0x80000000"] (by decide)

/-- Specification-side region-header test, from the claim: at least two
whitespace tokens, first token's first character an ASCII uppercase letter,
first token not one of ADDR, LOADADDR, STACK, second token parses as an
address. -/
def regionHeaderSpecParts : List Str → Bool
  | name :: addrTok :: _ =>
    upperStart name
    && !(decide (name = strLit "ADDR" ∨ name = strLit "LOADADDR" ∨ name = strLit "STACK"))
    && (match Address.parse addrTok with
        | .ok _ => true
        | .error _ => false)
  | _ => false

def regionHeaderSpec (l : Str) : Bool :=
  regionHeaderSpecParts (wordsOf (stripLine l))

/-- Claim C7: inside a block, a line is treated as a region header if and only
if it passes the four checks of `regionHeaderSpec`; a line failing any check
is skipped without an error (`try_parse_region` returns no region and leaves
the cursor unchanged, so the caller just advances), and a line passing them is
committed to: the parser either returns a region named by the first token or
fails on the subsequent opening-brace requirement, never silently skipping. -/
theorem c7_region_header_acceptance (lines : List Str) (i : Nat) (l : Str)
    (hg : lines.get? i = some l) :
    (regionHeaderSpec l = false → tryParseRegion lines i = .ok (none, i)) ∧
    (regionHeaderSpec l = true →
      (∃ e, tryParseRegion lines i = .error e) ∨
      ∃ r k, tryParseRegion lines i = .ok (some r, k) ∧
        ∃ addrTok tail2, wordsOf (stripLine l) = r.name :: addrTok :: tail2) := by
  constructor
  · intro hspec
    unfold tryParseRegion
    split
    · rfl
    · rename_i l0 heq
      rw [hg] at heq
      injection heq with heq2
      subst heq2
      split
      · rename_i name addrTok tail2 heqw
        unfold regionHeaderSpec at hspec
        rw [heqw] at hspec
        simp only [regionHeaderSpecParts] at hspec
        split
        · rfl
        · rename_i hup
          split
          · rfl
          · rename_i hres
            split
            · rfl
            · rename_i vma heqp
              exfalso
              have hup2 : upperStart name = true := by
                revert hup
                cases upperStart name <;> simp
              rw [hup2, decide_eq_false hres, heqp] at hspec
              simp at hspec
      · rename_i heqw
        rfl
  · intro hspec
    unfold tryParseRegion
    split
    · rename_i heq
      rw [hg] at heq
      cases heq
    · rename_i l0 heq
      rw [hg] at heq
      injection heq with heq2
      subst heq2
      split
      · rename_i name addrTok tail2 heqw
        unfold regionHeaderSpec at hspec
        rw [heqw] at hspec
        simp only [regionHeaderSpecParts] at hspec
        split
        · rename_i hup
          exfalso
          rw [hup] at hspec
          simp at hspec
        · rename_i hup
          split
          · rename_i hres
            exfalso
            rw [decide_eq_true hres] at hspec
            simp at hspec
          · rename_i hres
            split
            · rename_i e heqp
              exfalso
              rw [heqp] at hspec
              simp at hspec
            · rename_i vma heqp
              split
              · exact Or.inl ⟨_, rfl⟩
              · rename_i lb heqb
                split
                · split
                  · exact Or.inl ⟨_, rfl⟩
                  · rename_i ds k hd
                    exact Or.inr ⟨⟨name, vma, ds⟩, k, rfl, addrTok, tail2, heqw⟩
                · exact Or.inl ⟨_, rfl⟩
      · rename_i heqw
        exfalso
        unfold regionHeaderSpec at hspec
        cases hw : wordsOf (stripLine l) with
        | nil =>
          rw [hw] at hspec
          rw [show regionHeaderSpecParts [] = false from rfl] at hspec
          cases hspec
        | cons a t =>
          cases t with
          | nil =>
            rw [hw] at hspec
            rw [show regionHeaderSpecParts [a] = false from rfl] at hspec
            cases hspec
          | cons b t2 => exact heqw a b t2 hw

/-- Witness for C7: a lowercase-keyword line is skipped with the cursor
unchanged; an uppercase region header line commits (here: fails on the missing
opening brace, rather than being skipped). -/
theorem c7_witness :
    tryParseRegion [strLit "addr 0x10"] 0 = .ok (none, 0) ∧
    ((∃ e, tryParseRegion [strLit "BOOT 0x0"] 0 = .error e) ∨
      ∃ r k, tryParseRegion [strLit "BOOT 0x0"] 0 = .ok (some r, k) ∧
        ∃ addrTok tail2,
          wordsOf (stripLine (strLit "BOOT 0x0")) = r.name :: addrTok :: tail2) := by
  constructor
  · exact (c7_region_header_acceptance [strLit "addr 0x10"] 0 (strLit "addr 0x10")
      rfl).1 (by decide)
  · exact (c7_region_header_acceptance [strLit "BOOT 0x0"] 0 (strLit "BOOT 0x0")
      rfl).2 (by decide)

/-- Claim C9: when a block header carries an ALIGN keyword (matched
ASCII-case-insensitively) whose following token does not parse as an unsigned
integer, and the header's block type and address are well-formed, parsing the
block fails with a `Parse` error whose 1-based line number is that of the
block-header line itself (the cursor has not advanced to any region line). -/
theorem c9_bad_alignment_at_header_line (lines : List Str) (i : Nat)
    (l bt rest a kw v : Str) (more : List Str)
    (hg : lines.get? i = some l)
    (hbt : findBlockType (stripLine l) = some (bt, rest))
    (hw : wordsOf rest = a :: kw :: v :: more)
    (ha : ∃ lma, Address.parse a = .ok lma)
    (hkw : eqIgnoreAsciiCase kw (strLit "ALIGN") = true)
    (hv : parseU64 10 v = none) :
    tryParseBlock lines i = .error (.Parse (i + 1) (strLit "Invalid alignment value")) := by
  obtain ⟨lma, ha⟩ := ha
  unfold tryParseBlock
  split
  · rename_i heq
    rw [hg] at heq
    cases heq
  · rename_i l0 heq
    rw [hg] at heq
    injection heq with heq2
    subst heq2
    split
    · rename_i heqb
      rw [hbt] at heqb
      cases heqb
    · rename_i bt2 rest2 heqb
      rw [hbt] at heqb
      injection heqb with heqb2
      injection heqb2 with hb1 hb2
      subst hb1
      subst hb2
      split
      · rename_i heqw
        rw [hw] at heqw
        cases heqw
      · rename_i addrTok parts heqw
        rw [hw] at heqw
        injection heqw with hw1 hw2
        subst hw1
        subst hw2
        split
        · rename_i e heqa
          rw [ha] at heqa
          cases heqa
        · rename_i lma2 heqa
          have hal : parseAlignment (i + 1) (kw :: v :: more) =
              .error (.Parse (i + 1) (strLit "Invalid alignment value")) := by
            simp only [parseAlignment]
            rw [if_pos hkw, hv]
          split
          · rename_i e heqal
            rw [hal] at heqal
            injection heqal with heqal2
            rw [← heqal2]
          · rename_i alignment heqal
            exfalso
            rw [hal] at heqal
            cases heqal

/-- Witness for C9: `HEAD 0x0 ALIGN abc` fails with the alignment error at
line 1, the header's own line. -/
theorem c9_witness :
    tryParseBlock [strLit "HEAD 0x0 ALIGN abc", strLit "\x7b"] 0 =
      .error (.Parse 1 (strLit "Invalid alignment value")) := by
  exact c9_bad_alignment_at_header_line
    [strLit "HEAD 0x0 ALIGN abc", strLit "\x7b"] 0
    (strLit "HEAD 0x0 ALIGN abc") (strLit "HEAD") (strLit "0x0 ALIGN abc")
    (strLit "0x0") (strLit "ALIGN") (strLit "abc") []
    rfl (by decide) (by decide) ⟨.Absolute 0, rfl⟩ (by decide) (by decide)

end Sag
